import Mathlib

/-!
Verification of the oshu! game core (clock synchronizer, hit timeline,
game-state flags) against its natural-language specification.

The embedding is shallow: the C functions of `src/src/game/game.c` (and the
screen variant in `src/src/game/screens/play.c`) are translated into pure Lean
functions.  `double` time values are modelled as exact rationals `ℚ`; the
claims under study are order/affine properties for which this is the intended
real-number semantics.  Stateful C code becomes explicit state passing; calls
into external collaborators (SDL, the audio device) are modelled by passing
the sampled or returned value as an explicit argument.  Loops over the
doubly-linked hit list are modelled over a `List` of hits with an index
cursor; a walk that would dereference the null pointer beyond the head or
tail sentinel returns `none`.
-/

namespace Oshu

/-- Per-hit state tag, from `enum oshu_hit_state`
(OSHU_INITIAL_HIT, OSHU_SLIDING_HIT, OSHU_GOOD_HIT, OSHU_MISSED_HIT,
OSHU_SKIPPED_HIT). -/
inductive HitState where
  | initial
  | sliding
  | good
  | missed
  | skipped
  deriving DecidableEq, Repr, Inhabited

/-- One hit object of the timeline.  `time` is the scheduled instant.
`endTime` models `oshu_hit_end_time`.  Modelled from the spec: the function
`oshu_hit_end_time` itself is not under `src/`; per the spec it is a derived
attribute, `time` plus the duration for extended (slider) objects and `time`
itself otherwise, so it is carried as a field with `time ≤ endTime` assumed
where a claim needs it. -/
structure Hit where
  time : ℚ
  endTime : ℚ
  state : HitState
  deriving DecidableEq, Repr, Inhabited

/-- Function `oshu_hit_end_time(hit)`: the end time of a hit object. -/
def oshu_hit_end_time (h : Hit) : ℚ := h.endTime

/-- The sentinel-aware timeline is a plain list of hits; index `0` is the
head sentinel and index `length - 1` the tail sentinel when the hypotheses
of a claim say so.  `timeAt`/`endTimeAt` read the fields of the hit at an
index. -/
def timeAt (hits : List Hit) (i : Nat) : ℚ := (hits.getD i default).time

/-- End time of the hit at index `i`. -/
def endTimeAt (hits : List Hit) (i : Nat) : ℚ :=
  oshu_hit_end_time (hits.getD i default)

/-- Overwrite the state tag of the hit at index `i`
(`hit->state = ...` in the C loops). -/
def setState (hits : List Hit) (i : Nat) (s : HitState) : List Hit :=
  hits.set i { hits.getD i default with state := s }

/-- The game clock, `struct oshu_clock`: fields `now`, `before`, `system`,
`audio` of `game->clock`. -/
structure Clock where
  now : ℚ
  before : ℚ
  system : ℚ
  audio : ℚ
  deriving DecidableEq, Repr, Inhabited

/-- The values `update_clock` samples from outside: the wall clock
(`SDL_GetTicks() / 1000.`), the audio position
(`game->audio.music.current_timestamp`), and whether `game->state` has
`OSHU_PLAYING` set. -/
structure ClockInput where
  system : ℚ
  audioTimestamp : ℚ
  playing : Bool
  deriving DecidableEq, Repr, Inhabited

/-- The value the if/else chain of `update_clock` assigns to `clock->now`
before the monotonicity clamp (game.c lines 341–348).  `diff` is
`system - clock->system`, `prev_audio` the audio position remembered from the
previous call, `before` the previous `now`. -/
def computed_now (c : Clock) (inp : ClockInput) : ℚ :=
  let diff := inp.system - c.system
  let prev_audio := c.audio
  let audio := inp.audioTimestamp
  let before := c.now
  if !inp.playing then
    before          -- do not update the clock
  else if before < 0 then -- leading in
    before + diff
  else if audio = prev_audio then -- audio clock stuck
    before + diff
  else
    audio

/-- Function `update_clock` (game.c lines 332–352): sample the wall clock and audio
position, compute the new `now` by `computed_now`, then clamp it from below
by `before` to force monotonicity, and store the samples for the next call. -/
def update_clock (c : Clock) (inp : ClockInput) : Clock :=
  let before := c.now
  let now0 := computed_now c inp
  let now := if now0 < before then before else now0
  { now := now, before := before, system := inp.system,
    audio := inp.audioTimestamp }

/-- Run `update_clock` over a whole sequence of sampled inputs. -/
def runClock (c : Clock) (l : List ClockInput) : Clock :=
  l.foldl update_clock c

/-- The hit list is sorted non-decreasingly by `time`. -/
def sortedByTime (hits : List Hit) : Prop :=
  List.Chain' (fun a b => a.time ≤ b.time) hits

instance (hits : List Hit) : Decidable (sortedByTime hits) := by
  unfold sortedByTime
  infer_instance

/-- Backward walk shared by the two seek loops of game.c: starting at index
`i`, step to `previous` while `val` of the current hit exceeds `target`.
Stepping back from the head of the list would dereference a null pointer in
the C code; that is modelled by `none`. -/
def walkBackGT (val : Nat → ℚ) (target : ℚ) : Nat → Option Nat
  | 0 => if target < val 0 then none else some 0
  | i + 1 =>
      if target < val (i + 1) then walkBackGT val target i else some (i + 1)

/-- Forward walk shared by the two seek loops of game.c: starting at index
`i`, step to `next` while `val` of the current hit is below `target`.  `len`
is the list length; walking past the tail (null pointer in C) yields `none`.
The fuel argument only bounds the recursion and is passed as `len + 1`, which
the `none` branch reaches first. -/
def walkFwdLT (val : Nat → ℚ) (len : Nat) (target : ℚ) :
    Nat → Nat → Option Nat
  | _, 0 => none
  | i, fuel + 1 =>
      if i < len then
        if val i < target then walkFwdLT val len target (i + 1) fuel
        else some i
      else none

/-- Function `oshu_look_hit_back` (game.c lines 444–456): from the cursor, seek
backward while `oshu_hit_end_time(hit) > now - offset`, then forward while
`oshu_hit_end_time(hit) < now - offset`, and return the hit reached. -/
def oshu_look_hit_back (hits : List Hit) (cursor : Nat) (now offset : ℚ) :
    Option Nat :=
  match walkBackGT (endTimeAt hits) (now - offset) cursor with
  | none => none
  | some j =>
      walkFwdLT (endTimeAt hits) hits.length (now - offset) j (hits.length + 1)

/-- Function `oshu_look_hit_up` (game.c lines 458–470): from the cursor, seek forward
while `hit->time < now + offset`, then backward while
`hit->time > now + offset`, and return the hit reached. -/
def oshu_look_hit_up (hits : List Hit) (cursor : Nat) (now offset : ℚ) :
    Option Nat :=
  match walkFwdLT (timeAt hits) hits.length (now + offset) cursor
      (hits.length + 1) with
  | none => none
  | some j => walkBackGT (timeAt hits) (now + offset) j

/-- The session state bits of `game->state`: OSHU_USERPLAY, OSHU_AUTOPLAY,
OSHU_PAUSED, OSHU_PLAYING, OSHU_FINISHED, OSHU_STOPPING.  The enum itself is
not under src/; modelled from the spec: the states are "composed as
orthogonal flags", i.e. distinct bits, here one boolean per flag. -/
structure Flags where
  userplay : Bool
  autoplay : Bool
  paused : Bool
  playing : Bool
  finished : Bool
  stopping : Bool
  deriving DecidableEq, Repr, Inhabited

/-- The screen of the newer screen-based build (`game->screen` in
`src/src/game/screens/play.c`): the play screen or the score screen it
switches to at the end of the song. -/
inductive Screen where
  | play
  | score
  deriving DecidableEq, Repr, Inhabited

/-- The game session state touched by the functions under study.  `hits` is
`game->beatmap.hits` (sentinels included) with `cursor` the index of
`game->hit_cursor`; `now` is `game->clock.now`; `audioTimestamp` is
`game->audio.music.current_timestamp` and `audioPlaying` whether the audio
device is playing; `currentHit` is the object the mode currently holds;
`leniency` and `approachTime` come from `game->beatmap.difficulty`;
`screen` only exists in the screen-based build. -/
structure GameState where
  flags : Flags
  hits : List Hit
  cursor : Nat
  now : ℚ
  audioTimestamp : ℚ
  audioPlaying : Bool
  currentHit : Option Nat
  leniency : ℚ
  approachTime : ℚ
  screen : Screen
  deriving DecidableEq, Repr, Inhabited

/-- Condition `game->hit_cursor->next` is non-null. -/
def cursorHasNext (g : GameState) : Bool :=
  g.cursor + 1 < g.hits.length

/-- Modelled from the spec: `game->mode->relinquish(game)` — the mode
implementations are not under src/.  Per the spec it forcibly releases any
object currently held (a slider) when the user seeks or pauses
mid-interaction; modelled as dropping the held-object reference of the
mode. -/
def relinquish (g : GameState) : GameState :=
  { g with currentHit := none }

/-- The cursor loop of `rewind_music` (game.c lines 132–136): while
`hit_cursor->time > limit`, set the state of the hit to OSHU_INITIAL_HIT and step
to the previous hit.  Walking back past the head of the list (a null
dereference in C) is `none`. -/
def rewindWalk (limit : ℚ) : List Hit → Nat → Option (List Hit × Nat)
  | hits, 0 =>
      if limit < timeAt hits 0 then none else some (hits, 0)
  | hits, i + 1 =>
      if limit < timeAt hits (i + 1) then
        rewindWalk limit (setState hits (i + 1) .initial) i
      else some (hits, i + 1)

/-- The cursor loop of `forward_music` (game.c lines 150–154): while
`hit_cursor->time < limit`, mark the hit OSHU_SKIPPED_HIT and step to the
next hit.  Walking past the tail is `none`; the fuel argument only bounds
the recursion and is passed as `length + 1`. -/
def forwardWalk (limit : ℚ) : List Hit → Nat → Nat → Option (List Hit × Nat)
  | _, _, 0 => none
  | hits, i, fuel + 1 =>
      if i < hits.length then
        if timeAt hits i < limit then
          forwardWalk limit (setState hits i .skipped) (i + 1) fuel
        else some (hits, i)
      else none

/-- Function `rewind_music` (game.c lines 125–137).  `oshu_seek_music` is an external
collaborator: it is asked to seek to `audioTimestamp - offset` and the
playback position it actually establishes is passed in as `seekResult`.  The
clock is read back from the new audio position, the mode relinquishes any
held object, and the cursor walks backward resetting hits to initial while
their time exceeds `clock.now + 1`. -/
def rewind_music (g : GameState) (offset seekResult : ℚ) :
    Option GameState :=
  let g1 := relinquish { g with audioTimestamp := seekResult,
                                now := seekResult }
  match rewindWalk (g1.now + 1) g1.hits g1.cursor with
  | none => none
  | some (hits, c) => some { g1 with hits := hits, cursor := c }

/-- Function `forward_music` (game.c lines 139–155): seek the audio forward by
`offset` (establishing `seekResult`), read the clock back, relinquish, resume
the audio unless paused, then walk the cursor forward marking hits skipped
while their time is below `clock.now + 1`. -/
def forward_music (g : GameState) (offset seekResult : ℚ) :
    Option GameState :=
  let g1 := relinquish { g with audioTimestamp := seekResult,
                                now := seekResult }
  let g2 := if !g1.flags.paused then { g1 with audioPlaying := true } else g1
  match forwardWalk (g2.now + 1) g2.hits g2.cursor (g2.hits.length + 1) with
  | none => none
  | some (hits, c) => some { g2 with hits := hits, cursor := c }

/-- Function `pause_game` (game.c lines 111–117): pause the audio, set OSHU_PAUSED,
clear OSHU_PLAYING. -/
def pause_game (g : GameState) : GameState :=
  { g with
    audioPlaying := false
    flags := { g.flags with paused := true, playing := false } }

/-- Function `unpause_game` (game.c lines 166–175): when the clock is non-negative,
rewind by 1 second unless on autoplay, then start the audio; in every case
clear OSHU_PAUSED and set OSHU_PLAYING. -/
def unpause_game (g : GameState) (seekResult : ℚ) : Option GameState :=
  if 0 ≤ g.now then
    match (if !g.flags.autoplay then rewind_music g 1 seekResult
           else some g) with
    | none => none
    | some g1 =>
        some { g1 with
               audioPlaying := true
               flags := { g1.flags with paused := false, playing := true } }
  else
    some { g with flags := { g.flags with paused := false, playing := true } }

/-- The SDL scancodes `translate_key` inspects; `other` stands for every
scancode outside the mapped set. -/
inductive Scancode where
  | z | x | c | v | a | s | d | f | space | j | k | l | semicolon | other
  deriving DecidableEq, Repr

/-- Type `enum oshu_key`, plus the mouse button and OSHU_UNKNOWN_KEY. -/
inductive OshuKey where
  | leftMiddle | leftIndex | rightIndex | rightMiddle
  | leftPinky | leftRing | thumbs | rightRing | rightPinky
  | leftButton | unknown
  deriving DecidableEq, Repr

/-- Function `translate_key` (game.c lines 177–197): map a physical scancode to a
finger key; anything else is OSHU_UNKNOWN_KEY. -/
def translate_key : Scancode → OshuKey
  | .z => .leftMiddle
  | .x => .leftIndex
  | .c => .rightIndex
  | .v => .rightMiddle
  | .a => .leftPinky
  | .s => .leftRing
  | .d => .leftMiddle
  | .f => .leftIndex
  | .space => .thumbs
  | .j => .rightIndex
  | .k => .rightMiddle
  | .l => .rightRing
  | .semicolon => .rightPinky
  | .other => .unknown

/-- The key symbols (`keysym.sym`) the switches of `handle_event` test;
`other` is every other symbol.  The symbol and the scancode of a key event
are independent fields (a non-QWERTY layout pairs them differently). -/
inductive KeySym where
  | q | escape | pageup | pagedown | other
  deriving DecidableEq, Repr

/-- The SDL events `handle_event` reacts to. -/
inductive Event where
  | keyDown (rep : Bool) (sym : KeySym) (scancode : Scancode)
  | keyUp (sym : KeySym) (scancode : Scancode)
  | mouseDown
  | mouseUp
  | windowMinimized
  | windowFocusLost
  | windowClose
  deriving DecidableEq, Repr

/-- A callback invocation on the game mode. -/
inductive ModeCall where
  | press (key : OshuKey)
  | release (key : OshuKey)
  deriving DecidableEq, Repr

/-- Function `handle_event` (game.c lines 202–278).  Returns the new state and the
list of `mode->press` / `mode->release` invocations it performed;
`seekResult` is the playback position established by whichever audio seek
the handler may issue. -/
def handle_event (g : GameState) (e : Event) (seekResult : ℚ) :
    Option (GameState × List ModeCall) :=
  match e with
  | .keyDown rep sym scancode =>
      if rep then some (g, [])
      else if g.flags.autoplay || g.flags.paused then
        match sym with
        | .q =>
            some ({ g with flags := { g.flags with stopping := true } }, [])
        | .escape =>
            match unpause_game g seekResult with
            | none => none
            | some g1 => some (g1, [])
        | .pageup =>
            match rewind_music g 10 seekResult with
            | none => none
            | some g1 => some (g1, [])
        | .pagedown =>
            match forward_music g 20 seekResult with
            | none => none
            | some g1 => some (g1, [])
        | .other => some (g, [])
      else if g.flags.userplay && g.flags.playing then
        match sym with
        | .escape => some (pause_game g, [])
        | .pageup =>
            match rewind_music g 10 seekResult with
            | none => none
            | some g1 => some (g1, [])
        | .pagedown =>
            match forward_music g 20 seekResult with
            | none => none
            | some g1 => some (g1, [])
        | _ =>
            let key := translate_key scancode
            if key ≠ .unknown then some (g, [.press key]) else some (g, [])
      else
        match sym with
        | .q =>
            some ({ g with flags := { g.flags with stopping := true } }, [])
        | _ => some (g, [])
  | .keyUp _ scancode =>
      if g.flags.userplay && g.flags.playing then
        let key := translate_key scancode
        if key ≠ .unknown then some (g, [.release key]) else some (g, [])
      else some (g, [])
  | .mouseDown =>
      if g.flags.userplay && g.flags.playing then
        some (g, [.press .leftButton])
      else some (g, [])
  | .mouseUp =>
      if g.flags.userplay && g.flags.playing then
        some (g, [.release .leftButton])
      else some (g, [])
  | .windowMinimized | .windowFocusLost =>
      if g.flags.userplay && g.flags.playing && cursorHasNext g then
        some (pause_game g, [])
      else some (g, [])
  | .windowClose =>
      some ({ g with flags := { g.flags with stopping := true } }, [])

/-- Function `check_end` (game.c lines 383–393): when not already finished and the
cursor has no next hit, if `clock.now` exceeds the end time of the hit
before the cursor plus the leniency, the state becomes
`OSHU_FINISHED | OSHU_PLAYING` (a plain assignment replacing all flags). -/
def check_end (g : GameState) : GameState :=
  if g.flags.finished then g
  else if cursorHasNext g then g
  else if endTimeAt g.hits (g.cursor - 1) + g.leniency < g.now then
    { g with flags := { userplay := false, autoplay := false, paused := false,
                        playing := true, finished := true, stopping := false } }
  else g

/-- Function `check_end` of the screen-based build (`src/src/game/screens/play.c`
lines 70–81): same cursor condition, but the delay also includes the
approach time, and the effect is switching to the score screen. -/
def play_check_end (g : GameState) : GameState :=
  if cursorHasNext g then g
  else if endTimeAt g.hits (g.cursor - 1) + (g.leniency + g.approachTime)
      < g.now then
    { g with screen := .score }
  else g

/-- One step of the session: any of the four operations of the claims, with
the external seek outcomes chosen arbitrarily. -/
inductive Step : GameState → GameState → Prop where
  | pause (g : GameState) : Step g (pause_game g)
  | unpause (g g' : GameState) (s : ℚ) :
      unpause_game g s = some g' → Step g g'
  | event (g g' : GameState) (e : Event) (s : ℚ) (calls : List ModeCall) :
      handle_event g e s = some (g', calls) → Step g g'
  | checkEnd (g : GameState) : Step g (check_end g)

/-- OSHU_PAUSED and OSHU_PLAYING are not both set. -/
def flagsOK (g : GameState) : Prop :=
  ¬(g.flags.paused = true ∧ g.flags.playing = true)

/-- Timeline used to discuss `oshu_look_hit_back`: times sorted, but the
slider at time 1 ends late (end time 5), so end times are not sorted.  The
first and last hits play the role of the head and tail sentinels. -/
def exHitsBack : List Hit :=
  [⟨-100, -100, .initial⟩, ⟨1, 5, .initial⟩, ⟨2, 2, .initial⟩,
   ⟨3, 10, .initial⟩, ⟨100, 100, .initial⟩]

/-- The timeline of point objects at times 1, 2, 3, 5, 8. -/
def exHitsFive : List Hit :=
  [⟨1, 1, .initial⟩, ⟨2, 2, .initial⟩, ⟨3, 3, .initial⟩,
   ⟨5, 5, .initial⟩, ⟨8, 8, .initial⟩]

/-- Single-object timeline for the end-of-song example: head sentinel, one
object ending at 10 (already hit), tail sentinel. -/
def exEndHits : List Hit :=
  [⟨-100, -100, .initial⟩, ⟨10, 10, .good⟩, ⟨100, 100, .initial⟩]

/-- End-of-song example session: cursor on the tail sentinel (past the last
real object), `leniency = 1/2`, `approach_time = 1`, clock at `now`. -/
def exEndGame (now : ℚ) : GameState :=
  { flags := ⟨true, false, false, true, false, false⟩
    hits := exEndHits
    cursor := 2
    now := now
    audioTimestamp := now
    audioPlaying := true
    currentHit := none
    leniency := 1 / 2
    approachTime := 1
    screen := .play }

/-- Seek example session: cursor on the tail sentinel of `exEndHits`,
clock at 11. -/
def exSeekGame : GameState :=
  { flags := ⟨true, false, false, true, false, false⟩
    hits := [⟨-100, -100, .initial⟩, ⟨10, 10, .good⟩, ⟨100, 100, .initial⟩]
    cursor := 2
    now := 11
    audioTimestamp := 11
    audioPlaying := true
    currentHit := none
    leniency := 1 / 2
    approachTime := 1
    screen := .play }

/-- Session with one note at time 10, cursor on it, clock at 9.5: the note
is less than one second ahead of the clock. -/
def exC7Game : GameState :=
  { flags := ⟨true, false, false, true, false, false⟩
    hits := [⟨-100, -100, .initial⟩, ⟨10, 10, .initial⟩, ⟨100, 100, .initial⟩]
    cursor := 1
    now := 19 / 2
    audioTimestamp := 19 / 2
    audioPlaying := true
    currentHit := none
    leniency := 1 / 2
    approachTime := 1
    screen := .play }

/-- State `exC7Game` after an exact rewind by 2 seconds followed by an exact
forward seek by 2 seconds. -/
def exC7After : Option GameState :=
  match rewind_music exC7Game 2 (15 / 2) with
  | none => none
  | some g1 => forward_music g1 2 (19 / 2)

/-- Session paused before a far note at time 20, with the previous note at
time 5 already hit; the cursor is the first object at least one second ahead
of the clock (9.5). -/
def exC7WGame : GameState :=
  { flags := ⟨true, false, true, false, false, false⟩
    hits := [⟨-100, -100, .initial⟩, ⟨5, 5, .good⟩, ⟨20, 20, .initial⟩,
             ⟨100, 100, .initial⟩]
    cursor := 2
    now := 19 / 2
    audioTimestamp := 19 / 2
    audioPlaying := false
    currentHit := none
    leniency := 1 / 2
    approachTime := 1
    screen := .play }

/-- A user-play session in the playing state, with an empty timeline (the
input-dispatch claims never read it). -/
def exC8Game : GameState :=
  { flags := ⟨true, false, false, true, false, false⟩
    hits := []
    cursor := 0
    now := 0
    audioTimestamp := 0
    audioPlaying := true
    currentHit := none
    leniency := 0
    approachTime := 0
    screen := .play }

/-- State `exC8Game` with the clock still in lead-in (negative). -/
def exUnpNeg : GameState :=
  { exC8Game with now := -1, flags := ⟨true, false, true, false, false, false⟩ }

/-- An autoplay session with the clock at 0. -/
def exUnpAuto : GameState :=
  { exC8Game with flags := ⟨false, true, true, false, false, false⟩ }

/-- A paused user-play session with the clock at 11 on `exEndHits`. -/
def exUnpUser : GameState :=
  { exC8Game with
    flags := ⟨true, false, true, false, false, false⟩
    hits := [⟨-100, -100, .initial⟩, ⟨10, 10, .good⟩, ⟨100, 100, .initial⟩]
    cursor := 2
    now := 11
    audioTimestamp := 11 }

end Oshu

namespace Oshu

theorem update_clock_mono (c : Clock) (inp : ClockInput) :
    c.now ≤ (update_clock c inp).now := by
  by_cases h : computed_now c inp < c.now
  · simp [update_clock, h]
  · simp [update_clock, h]
    exact le_of_not_lt h

theorem runClock_mono (c : Clock) (l : List ClockInput) :
    c.now ≤ (runClock c l).now := by
  induction l generalizing c with
  | nil => simp [runClock]
  | cons x xs ih =>
      calc c.now ≤ (update_clock c x).now := update_clock_mono c x
        _ ≤ (runClock (update_clock c x) xs).now := ih _
        _ = (runClock c (x :: xs)).now := rfl

theorem walkBackGT_spec (val : Nat → ℚ) (target : ℚ) :
    ∀ i : Nat, (∃ j, j ≤ i ∧ val j ≤ target) →
    ∃ k, walkBackGT val target i = some k ∧ k ≤ i ∧ val k ≤ target ∧
      ∀ m, k < m → m ≤ i → target < val m := by
  intro i
  induction i with
  | zero =>
      rintro ⟨j, hj, hv⟩
      have hj0 : j = 0 := Nat.le_zero.mp hj
      subst hj0
      refine ⟨0, ?_, le_refl 0, hv, ?_⟩
      · simp [walkBackGT, not_lt.mpr hv]
      · intro m hm1 hm2; omega
  | succ i ih =>
      rintro ⟨j, hj, hv⟩
      by_cases h : target < val (i + 1)
      · have hji : j ≤ i := by
          rcases Nat.lt_or_ge j (i + 1) with h1 | h1
          · omega
          · exfalso
            have : j = i + 1 := le_antisymm hj h1
            subst this
            exact absurd hv (not_le.mpr h)
        obtain ⟨k, hk, hki, hkv, hkm⟩ := ih ⟨j, hji, hv⟩
        refine ⟨k, ?_, le_trans hki (Nat.le_succ i), hkv, ?_⟩
        · simpa [walkBackGT, h] using hk
        · intro m hm1 hm2
          rcases Nat.lt_or_ge m (i + 1) with h2 | h2
          · exact hkm m hm1 (by omega)
          · have : m = i + 1 := le_antisymm hm2 h2
            subst this; exact h
      · refine ⟨i + 1, ?_, le_refl _, le_of_not_lt h, ?_⟩
        · simp [walkBackGT, h]
        · intro m hm1 hm2; omega

theorem walkFwdLT_spec (val : Nat → ℚ) (len : Nat) (target : ℚ) :
    ∀ (fuel i : Nat), len ≤ i + fuel →
    (∃ j, i ≤ j ∧ j < len ∧ target ≤ val j) →
    ∃ k, walkFwdLT val len target i fuel = some k ∧ i ≤ k ∧ k < len ∧
      target ≤ val k ∧ ∀ m, i ≤ m → m < k → val m < target := by
  intro fuel
  induction fuel with
  | zero =>
      rintro i hlen ⟨j, hij, hjlen, _⟩
      omega
  | succ fuel ih =>
      rintro i hlen ⟨j, hij, hjlen, hval⟩
      have hi : i < len := lt_of_le_of_lt hij hjlen
      by_cases h : val i < target
      · have hj1 : i + 1 ≤ j := by
          rcases Nat.lt_or_ge i j with h1 | h1
          · omega
          · exfalso
            have : i = j := le_antisymm hij h1
            subst this
            exact absurd hval (not_le.mpr h)
        obtain ⟨k, hk, hik, hklen, hkv, hkm⟩ :=
          ih (i + 1) (by omega) ⟨j, hj1, hjlen, hval⟩
        refine ⟨k, ?_, by omega, hklen, hkv, ?_⟩
        · simpa [walkFwdLT, hi, h] using hk
        · intro m hm1 hm2
          rcases Nat.lt_or_ge m (i + 1) with h2 | h2
          · have : m = i := by omega
            subst this; exact h
          · exact hkm m h2 hm2
      · refine ⟨i, ?_, le_refl _, hi, le_of_not_lt h, ?_⟩
        · simp [walkFwdLT, hi, h]
        · intro m hm1 hm2; omega

theorem setState_length (hits : List Hit) (i : Nat) (s : HitState) :
    (setState hits i s).length = hits.length := by
  simp [setState]

theorem setState_getD_self (hits : List Hit) (i : Nat) (s : HitState)
    (h : i < hits.length) :
    (setState hits i s).getD i default =
      { hits.getD i default with state := s } := by
  simp [setState, List.getD_eq_getElem?_getD, List.getElem?_set_self',
    List.getElem?_eq_getElem h]

theorem setState_getD_ne (hits : List Hit) (i j : Nat) (s : HitState)
    (h : i ≠ j) :
    (setState hits i s).getD j default = hits.getD j default := by
  simp [setState, List.getD_eq_getElem?_getD, List.getElem?_set_ne h]

theorem setState_getD_oob (hits : List Hit) (i j : Nat) (s : HitState)
    (h : hits.length ≤ j) :
    (setState hits i s).getD j default = hits.getD j default := by
  have h1 : (setState hits i s).length ≤ j := by
    rw [setState_length]; exact h
  rw [List.getD_eq_getElem?_getD, List.getD_eq_getElem?_getD,
    List.getElem?_eq_none h1, List.getElem?_eq_none h]

theorem timeAt_setState (hits : List Hit) (n : Nat) (s : HitState) (j : Nat) :
    timeAt (setState hits n s) j = timeAt hits j := by
  unfold timeAt
  by_cases hnj : n = j
  · subst hnj
    by_cases hl : n < hits.length
    · rw [setState_getD_self hits n s hl]
    · rw [setState_getD_oob hits n n s (le_of_not_lt hl)]
  · rw [setState_getD_ne hits n j s hnj]

theorem rewindWalk_spec (limit : ℚ) :
    ∀ (i : Nat) (hits : List Hit), i < hits.length →
    (∃ j, j ≤ i ∧ timeAt hits j ≤ limit) →
    ∃ hits' k, rewindWalk limit hits i = some (hits', k) ∧ k ≤ i ∧
      hits'.length = hits.length ∧ timeAt hits k ≤ limit ∧
      (∀ m, k < m → m ≤ i → limit < timeAt hits m ∧
        hits'.getD m default =
          { hits.getD m default with state := .initial }) ∧
      (∀ m, ¬(k < m ∧ m ≤ i) →
        hits'.getD m default = hits.getD m default) := by
  intro i
  induction i with
  | zero =>
      rintro hits _ ⟨j, hj, hv⟩
      have hj0 : j = 0 := Nat.le_zero.mp hj
      subst hj0
      refine ⟨hits, 0, ?_, le_refl 0, rfl, hv, ?_, ?_⟩
      · simp [rewindWalk, not_lt.mpr hv]
      · intro m hm1 hm2; omega
      · intro m _; rfl
  | succ i ih =>
      rintro hits hlen ⟨j, hj, hv⟩
      by_cases h : limit < timeAt hits (i + 1)
      · have hji : j ≤ i := by
          rcases Nat.lt_or_ge j (i + 1) with h1 | h1
          · omega
          · exfalso
            have : j = i + 1 := le_antisymm hj h1
            subst this
            exact absurd hv (not_le.mpr h)
        obtain ⟨hits', k, hk, hki, hlen', hkv, hwalk, hsame⟩ :=
          ih (setState hits (i + 1) .initial)
            (by rw [setState_length]; omega)
            ⟨j, hji, by rw [timeAt_setState]; exact hv⟩
        have hne : ∀ m, m ≤ i → m ≠ i + 1 := by intro m hm; omega
        refine ⟨hits', k, ?_, by omega,
          by rw [hlen', setState_length], ?_, ?_, ?_⟩
        · simpa [rewindWalk, h] using hk
        · rw [← timeAt_setState hits (i + 1) .initial k]; exact hkv
        · intro m hm1 hm2
          rcases Nat.lt_or_ge m (i + 1) with h2 | h2
          · obtain ⟨hw1, hw2⟩ := hwalk m hm1 (by omega)
            rw [timeAt_setState] at hw1
            rw [setState_getD_ne hits (i + 1) m .initial (by omega)] at hw2
            exact ⟨hw1, hw2⟩
          · have hm : m = i + 1 := le_antisymm hm2 h2
            subst hm
            refine ⟨h, ?_⟩
            rw [hsame (i + 1) (by omega)]
            exact setState_getD_self hits (i + 1) .initial hlen
        · intro m hm
          have hki1 : k < i + 1 := by omega
          have hmne : m ≠ i + 1 := by
            intro hcon; subst hcon; exact hm ⟨hki1, le_refl _⟩
          rw [hsame m (by omega)]
          exact setState_getD_ne hits (i + 1) m HitState.initial (Ne.symm hmne)
      · refine ⟨hits, i + 1, ?_, le_refl _, rfl, le_of_not_lt h, ?_, ?_⟩
        · simp [rewindWalk, h]
        · intro m hm1 hm2; omega
        · intro m _; rfl

theorem forwardWalk_spec (limit : ℚ) :
    ∀ (fuel : Nat) (hits : List Hit) (i : Nat),
      hits.length ≤ i + fuel →
      (∃ j, i ≤ j ∧ j < hits.length ∧ limit ≤ timeAt hits j) →
    ∃ hits' k, forwardWalk limit hits i fuel = some (hits', k) ∧
      i ≤ k ∧ k < hits.length ∧ hits'.length = hits.length ∧
      limit ≤ timeAt hits k ∧
      (∀ m, i ≤ m → m < k → timeAt hits m < limit ∧
        hits'.getD m default =
          { hits.getD m default with state := .skipped }) ∧
      (∀ m, ¬(i ≤ m ∧ m < k) →
        hits'.getD m default = hits.getD m default) := by
  intro fuel
  induction fuel with
  | zero =>
      rintro hits i hlen ⟨j, hij, hjl, _⟩
      omega
  | succ fuel ih =>
      rintro hits i hlen ⟨j, hij, hjl, hjv⟩
      have hi : i < hits.length := lt_of_le_of_lt hij hjl
      by_cases h : timeAt hits i < limit
      · have hj1 : i + 1 ≤ j := by
          rcases Nat.lt_or_ge i j with h1 | h1
          · omega
          · exfalso
            have : i = j := le_antisymm hij h1
            subst this
            exact absurd hjv (not_le.mpr h)
        obtain ⟨hits', k, hk, hik, hkl, hlen', hkv, hwalk, hsame⟩ :=
          ih (setState hits i .skipped) (i + 1)
            (by rw [setState_length]; omega)
            ⟨j, hj1, by rw [setState_length]; exact hjl,
             by rw [timeAt_setState]; exact hjv⟩
        rw [setState_length] at hkl
        refine ⟨hits', k, ?_, by omega, hkl,
          by rw [hlen', setState_length], ?_, ?_, ?_⟩
        · simpa [forwardWalk, hi, h] using hk
        · rw [← timeAt_setState hits i HitState.skipped k]; exact hkv
        · intro m hm1 hm2
          rcases Nat.lt_or_ge m (i + 1) with h2 | h2
          · have hm : m = i := by omega
            rw [hm]
            refine ⟨h, ?_⟩
            rw [hsame i (by omega)]
            exact setState_getD_self hits i HitState.skipped hi
          · obtain ⟨hw1, hw2⟩ := hwalk m h2 hm2
            rw [timeAt_setState] at hw1
            rw [setState_getD_ne hits i m HitState.skipped (by omega)] at hw2
            exact ⟨hw1, hw2⟩
        · intro m hm
          have hmne : m ≠ i := by
            intro hcon; subst hcon; exact hm ⟨le_refl _, by omega⟩
          have hm1 : ¬(i + 1 ≤ m ∧ m < k) := by
            intro ⟨ha, hb⟩; exact hm ⟨by omega, hb⟩
          rw [hsame m hm1]
          exact setState_getD_ne hits i m HitState.skipped (by omega)
      · refine ⟨hits, i, ?_, le_refl _, hi, rfl, le_of_not_lt h, ?_, ?_⟩
        · simp [forwardWalk, hi, h]
        · intro m hm1 hm2; omega
        · intro m _; rfl

theorem rewind_music_some (g : GameState) (offset s : ℚ)
    (hits' : List Hit) (k : Nat)
    (h : rewindWalk (s + 1) g.hits g.cursor = some (hits', k)) :
    rewind_music g offset s =
      some { g with
             audioTimestamp := s
             now := s
             currentHit := none
             hits := hits'
             cursor := k } := by
  simp [rewind_music, relinquish, h]

theorem forward_music_some (g : GameState) (offset s : ℚ)
    (hits' : List Hit) (k : Nat)
    (h : forwardWalk (s + 1) g.hits g.cursor (g.hits.length + 1)
      = some (hits', k)) :
    forward_music g offset s =
      some { g with
             audioTimestamp := s
             now := s
             currentHit := none
             audioPlaying := (!g.flags.paused || g.audioPlaying)
             hits := hits'
             cursor := k } := by
  by_cases hp : g.flags.paused
  · simp [forward_music, relinquish, hp, h]
  · simp [forward_music, relinquish, hp, h]

theorem rewind_music_flags (g : GameState) (offset s : ℚ)
    (g' : GameState) (h : rewind_music g offset s = some g') :
    g'.flags = g.flags := by
  unfold rewind_music relinquish at h
  cases hw : rewindWalk (s + 1) g.hits g.cursor with
  | none => simp [hw] at h
  | some p =>
      obtain ⟨hits', k⟩ := p
      simp [hw] at h
      rw [← h]

theorem forward_music_flags (g : GameState) (offset s : ℚ)
    (g' : GameState) (h : forward_music g offset s = some g') :
    g'.flags = g.flags := by
  by_cases hp : g.flags.paused
  · unfold forward_music relinquish at h
    simp [hp] at h
    cases hw : forwardWalk (s + 1) g.hits g.cursor (g.hits.length + 1) with
    | none => simp [hw] at h
    | some p =>
        obtain ⟨hits', k⟩ := p
        simp [hw] at h
        rw [← h]
  · unfold forward_music relinquish at h
    simp [hp] at h
    cases hw : forwardWalk (s + 1) g.hits g.cursor (g.hits.length + 1) with
    | none => simp [hw] at h
    | some p =>
        obtain ⟨hits', k⟩ := p
        simp [hw] at h
        rw [← h]

theorem unpause_game_flags (g : GameState) (s : ℚ) (g' : GameState)
    (h : unpause_game g s = some g') :
    g'.flags.paused = false ∧ g'.flags.playing = true := by
  unfold unpause_game at h
  by_cases h0 : 0 ≤ g.now
  · simp only [if_pos h0] at h
    by_cases ha : g.flags.autoplay
    · simp [ha] at h
      rw [← h]
      exact ⟨rfl, rfl⟩
    · simp [ha] at h
      cases hr : rewind_music g 1 s with
      | none => rw [hr] at h; simp at h
      | some g1 =>
          rw [hr] at h
          simp at h
          rw [← h]
          exact ⟨rfl, rfl⟩
  · simp only [if_neg h0] at h
    simp at h
    rw [← h]
    exact ⟨rfl, rfl⟩

/-- The list of mode callbacks `handle_event` can make: either none, or —
only with USERPLAY and PLAYING both set — a single press/release from the
key-down default arm, a key-up, or a mouse button event. -/
theorem handle_event_calls_spec (g : GameState) (e : Event) (s : ℚ)
    (g' : GameState) (calls : List ModeCall)
    (h : handle_event g e s = some (g', calls)) :
    calls = [] ∨
    (g.flags.userplay = true ∧ g.flags.playing = true ∧
      ((∃ sym sc, e = Event.keyDown false sym sc ∧
          (sym = KeySym.q ∨ sym = KeySym.other) ∧
          g.flags.autoplay = false ∧ g.flags.paused = false ∧
          translate_key sc ≠ OshuKey.unknown ∧
          calls = [ModeCall.press (translate_key sc)]) ∨
        (∃ sym sc, e = Event.keyUp sym sc ∧
          translate_key sc ≠ OshuKey.unknown ∧
          calls = [ModeCall.release (translate_key sc)]) ∨
        (e = Event.mouseDown ∧ calls = [ModeCall.press OshuKey.leftButton]) ∨
        (e = Event.mouseUp ∧
          calls = [ModeCall.release OshuKey.leftButton]))) := by
  cases e with
  | keyDown rep sym sc =>
      cases rep with
      | true =>
          simp [handle_event] at h
          exact Or.inl (by first | exact h.2 | exact h.2.symm)
      | false =>
          by_cases hap : (g.flags.autoplay || g.flags.paused) = true
          · cases sym with
            | q =>
                simp [handle_event, hap] at h
                exact Or.inl (by first | exact h.2 | exact h.2.symm)
            | escape =>
                cases hu : unpause_game g s with
                | none => simp [handle_event, hap, hu] at h
                | some g1 =>
                    simp [handle_event, hap, hu] at h
                    exact Or.inl (by first | exact h.2 | exact h.2.symm)
            | pageup =>
                cases hu : rewind_music g 10 s with
                | none => simp [handle_event, hap, hu] at h
                | some g1 =>
                    simp [handle_event, hap, hu] at h
                    exact Or.inl (by first | exact h.2 | exact h.2.symm)
            | pagedown =>
                cases hu : forward_music g 20 s with
                | none => simp [handle_event, hap, hu] at h
                | some g1 =>
                    simp [handle_event, hap, hu] at h
                    exact Or.inl (by first | exact h.2 | exact h.2.symm)
            | other =>
                simp [handle_event, hap] at h
                exact Or.inl (by first | exact h.2 | exact h.2.symm)
          · by_cases hup : (g.flags.userplay && g.flags.playing) = true
            · have hu1 : g.flags.userplay = true := by
                simpa using (Bool.and_eq_true _ _ |>.mp hup).1
              have hp1 : g.flags.playing = true := by
                simpa using (Bool.and_eq_true _ _ |>.mp hup).2
              have hax : g.flags.autoplay = false ∧ g.flags.paused = false := by
                simpa using hap
              cases sym with
              | escape =>
                  simp [handle_event, hap, hup] at h
                  exact Or.inl (by first | exact h.2 | exact h.2.symm)
              | pageup =>
                  cases hu : rewind_music g 10 s with
                  | none => simp [handle_event, hap, hup, hu] at h
                  | some g1 =>
                      simp [handle_event, hap, hup, hu] at h
                      exact Or.inl (by first | exact h.2 | exact h.2.symm)
              | pagedown =>
                  cases hu : forward_music g 20 s with
                  | none => simp [handle_event, hap, hup, hu] at h
                  | some g1 =>
                      simp [handle_event, hap, hup, hu] at h
                      exact Or.inl (by first | exact h.2 | exact h.2.symm)
              | q =>
                  by_cases hk : translate_key sc = OshuKey.unknown
                  · simp [handle_event, hap, hup, hk] at h
                    exact Or.inl (by first | exact h.2 | exact h.2.symm)
                  · simp [handle_event, hap, hup, hk] at h
                    refine Or.inr ⟨hu1, hp1, Or.inl
                      ⟨KeySym.q, sc, rfl, Or.inl rfl, hax.1, hax.2, hk,
                       by first | exact h.2 | exact h.2.symm⟩⟩
              | other =>
                  by_cases hk : translate_key sc = OshuKey.unknown
                  · simp [handle_event, hap, hup, hk] at h
                    exact Or.inl (by first | exact h.2 | exact h.2.symm)
                  · simp [handle_event, hap, hup, hk] at h
                    refine Or.inr ⟨hu1, hp1, Or.inl
                      ⟨KeySym.other, sc, rfl, Or.inr rfl, hax.1, hax.2, hk,
                       by first | exact h.2 | exact h.2.symm⟩⟩
            · cases sym <;> simp [handle_event, hap, hup] at h <;>
                exact Or.inl (by first | exact h.2 | exact h.2.symm)
  | keyUp sym sc =>
      by_cases hup : (g.flags.userplay && g.flags.playing) = true
      · have hu1 : g.flags.userplay = true := by
          simpa using (Bool.and_eq_true _ _ |>.mp hup).1
        have hp1 : g.flags.playing = true := by
          simpa using (Bool.and_eq_true _ _ |>.mp hup).2
        by_cases hk : translate_key sc = OshuKey.unknown
        · simp [handle_event, hup, hk] at h
          exact Or.inl (by first | exact h.2 | exact h.2.symm)
        · simp [handle_event, hup, hk] at h
          exact Or.inr ⟨hu1, hp1, Or.inr (Or.inl
            ⟨sym, sc, rfl, hk, by first | exact h.2 | exact h.2.symm⟩)⟩
      · simp [handle_event, hup] at h
        exact Or.inl (by first | exact h.2 | exact h.2.symm)
  | mouseDown =>
      by_cases hup : (g.flags.userplay && g.flags.playing) = true
      · have hu1 : g.flags.userplay = true := by
          simpa using (Bool.and_eq_true _ _ |>.mp hup).1
        have hp1 : g.flags.playing = true := by
          simpa using (Bool.and_eq_true _ _ |>.mp hup).2
        simp [handle_event, hup] at h
        exact Or.inr ⟨hu1, hp1, Or.inr (Or.inr (Or.inl ⟨rfl, h.2.symm⟩))⟩
      · simp [handle_event, hup] at h
        exact Or.inl (by first | exact h.2 | exact h.2.symm)
  | mouseUp =>
      by_cases hup : (g.flags.userplay && g.flags.playing) = true
      · have hu1 : g.flags.userplay = true := by
          simpa using (Bool.and_eq_true _ _ |>.mp hup).1
        have hp1 : g.flags.playing = true := by
          simpa using (Bool.and_eq_true _ _ |>.mp hup).2
        simp [handle_event, hup] at h
        exact Or.inr ⟨hu1, hp1, Or.inr (Or.inr (Or.inr ⟨rfl, h.2.symm⟩))⟩
      · simp [handle_event, hup] at h
        exact Or.inl (by first | exact h.2 | exact h.2.symm)
  | windowMinimized =>
      by_cases hc : (g.flags.userplay && g.flags.playing
          && cursorHasNext g) = true
      · simp [handle_event, hc] at h
        exact Or.inl (by first | exact h.2 | exact h.2.symm)
      · simp [handle_event, hc] at h
        exact Or.inl (by first | exact h.2 | exact h.2.symm)
  | windowFocusLost =>
      by_cases hc : (g.flags.userplay && g.flags.playing
          && cursorHasNext g) = true
      · simp [handle_event, hc] at h
        exact Or.inl (by first | exact h.2 | exact h.2.symm)
      · simp [handle_event, hc] at h
        exact Or.inl (by first | exact h.2 | exact h.2.symm)
  | windowClose =>
      simp [handle_event] at h
      exact Or.inl (by first | exact h.2 | exact h.2.symm)

theorem handle_event_flagsOK (g : GameState) (e : Event) (s : ℚ)
    (g' : GameState) (calls : List ModeCall)
    (h : handle_event g e s = some (g', calls))
    (hg : ¬(g.flags.paused = true ∧ g.flags.playing = true)) :
    ¬(g'.flags.paused = true ∧ g'.flags.playing = true) := by
  cases e with
  | keyDown rep sym sc =>
      cases rep with
      | true =>
          simp [handle_event] at h
          obtain ⟨h1, -⟩ := h
          subst h1
          exact hg
      | false =>
          by_cases hap : (g.flags.autoplay || g.flags.paused) = true
          · cases sym with
            | q =>
                simp [handle_event, hap] at h
                obtain ⟨h1, -⟩ := h
                subst h1
                exact hg
            | escape =>
                cases hu : unpause_game g s with
                | none => simp [handle_event, hap, hu] at h
                | some g1 =>
                    simp [handle_event, hap, hu] at h
                    obtain ⟨h1, -⟩ := h
                    subst h1
                    have hf := unpause_game_flags g s g1 hu
                    simp [hf.1]
            | pageup =>
                cases hu : rewind_music g 10 s with
                | none => simp [handle_event, hap, hu] at h
                | some g1 =>
                    simp [handle_event, hap, hu] at h
                    obtain ⟨h1, -⟩ := h
                    subst h1
                    have hf := rewind_music_flags g 10 s g1 hu
                    rw [hf]
                    exact hg
            | pagedown =>
                cases hu : forward_music g 20 s with
                | none => simp [handle_event, hap, hu] at h
                | some g1 =>
                    simp [handle_event, hap, hu] at h
                    obtain ⟨h1, -⟩ := h
                    subst h1
                    have hf := forward_music_flags g 20 s g1 hu
                    rw [hf]
                    exact hg
            | other =>
                simp [handle_event, hap] at h
                obtain ⟨h1, -⟩ := h
                subst h1
                exact hg
          · by_cases hup : (g.flags.userplay && g.flags.playing) = true
            · cases sym with
              | escape =>
                  simp [handle_event, hap, hup] at h
                  obtain ⟨h1, -⟩ := h
                  subst h1
                  simp [pause_game]
              | pageup =>
                  cases hu : rewind_music g 10 s with
                  | none => simp [handle_event, hap, hup, hu] at h
                  | some g1 =>
                      simp [handle_event, hap, hup, hu] at h
                      obtain ⟨h1, -⟩ := h
                      subst h1
                      have hf := rewind_music_flags g 10 s g1 hu
                      rw [hf]
                      exact hg
              | pagedown =>
                  cases hu : forward_music g 20 s with
                  | none => simp [handle_event, hap, hup, hu] at h
                  | some g1 =>
                      simp [handle_event, hap, hup, hu] at h
                      obtain ⟨h1, -⟩ := h
                      subst h1
                      have hf := forward_music_flags g 20 s g1 hu
                      rw [hf]
                      exact hg
              | q =>
                  by_cases hk : translate_key sc = OshuKey.unknown
                  · simp [handle_event, hap, hup, hk] at h
                    obtain ⟨h1, -⟩ := h
                    subst h1
                    exact hg
                  · simp [handle_event, hap, hup, hk] at h
                    obtain ⟨h1, -⟩ := h
                    subst h1
                    exact hg
              | other =>
                  by_cases hk : translate_key sc = OshuKey.unknown
                  · simp [handle_event, hap, hup, hk] at h
                    obtain ⟨h1, -⟩ := h
                    subst h1
                    exact hg
                  · simp [handle_event, hap, hup, hk] at h
                    obtain ⟨h1, -⟩ := h
                    subst h1
                    exact hg
            · cases sym <;>
                · simp [handle_event, hap, hup] at h
                  obtain ⟨h1, -⟩ := h
                  subst h1
                  exact hg
  | keyUp sym sc =>
      by_cases hup : (g.flags.userplay && g.flags.playing) = true
      · by_cases hk : translate_key sc = OshuKey.unknown
        · simp [handle_event, hup, hk] at h
          obtain ⟨h1, -⟩ := h
          subst h1
          exact hg
        · simp [handle_event, hup, hk] at h
          obtain ⟨h1, -⟩ := h
          subst h1
          exact hg
      · simp [handle_event, hup] at h
        obtain ⟨h1, -⟩ := h
        subst h1
        exact hg
  | mouseDown =>
      by_cases hup : (g.flags.userplay && g.flags.playing) = true <;>
        · simp [handle_event, hup] at h
          obtain ⟨h1, -⟩ := h
          subst h1
          exact hg
  | mouseUp =>
      by_cases hup : (g.flags.userplay && g.flags.playing) = true <;>
        · simp [handle_event, hup] at h
          obtain ⟨h1, -⟩ := h
          subst h1
          exact hg
  | windowMinimized =>
      by_cases hc : (g.flags.userplay && g.flags.playing
          && cursorHasNext g) = true
      · simp [handle_event, hc] at h
        obtain ⟨h1, -⟩ := h
        subst h1
        simp [pause_game]
      · simp [handle_event, hc] at h
        obtain ⟨h1, -⟩ := h
        subst h1
        exact hg
  | windowFocusLost =>
      by_cases hc : (g.flags.userplay && g.flags.playing
          && cursorHasNext g) = true
      · simp [handle_event, hc] at h
        obtain ⟨h1, -⟩ := h
        subst h1
        simp [pause_game]
      · simp [handle_event, hc] at h
        obtain ⟨h1, -⟩ := h
        subst h1
        exact hg
  | windowClose =>
      simp [handle_event] at h
      obtain ⟨h1, -⟩ := h
      subst h1
      exact hg

theorem step_flagsOK (g g' : GameState) (hg : flagsOK g)
    (hs : Step g g') : flagsOK g' := by
  cases hs with
  | pause =>
      unfold flagsOK
      intro hcon
      have hx : (false : Bool) = true := hcon.2
      simp at hx
  | unpause _ s h =>
      have hf := unpause_game_flags g s g' h
      unfold flagsOK
      intro hcon
      rw [hf.1] at hcon
      exact absurd hcon.1 (by simp)
  | event _ e s calls h =>
      exact handle_event_flagsOK g e s g' calls h hg
  | checkEnd =>
      unfold flagsOK check_end
      by_cases hf : g.flags.finished = true
      · rw [if_pos hf]; exact hg
      · rw [if_neg hf]
        by_cases hn : cursorHasNext g = true
        · rw [if_pos hn]; exact hg
        · rw [if_neg hn]
          by_cases ht : endTimeAt g.hits (g.cursor - 1) + g.leniency < g.now
          · rw [if_pos ht]
            intro hcon
            have hx : (false : Bool) = true := hcon.1
            simp at hx
          · rw [if_neg ht]; exact hg

theorem check_end_finished_iff (g : GameState) :
    (check_end g).flags.finished = true ↔
      (g.flags.finished = true ∨ (cursorHasNext g = false ∧
        endTimeAt g.hits (g.cursor - 1) + g.leniency < g.now)) := by
  unfold check_end
  by_cases hf : g.flags.finished = true
  · simp [hf]
  · by_cases hn : cursorHasNext g
    · simp [hf, hn]
    · by_cases ht : endTimeAt g.hits (g.cursor - 1) + g.leniency < g.now
      · simp [hf, hn, ht]
      · simp [hf, hn, ht]

theorem play_check_end_score_iff (g : GameState) :
    (play_check_end g).screen = Screen.score ↔
      (g.screen = Screen.score ∨ (cursorHasNext g = false ∧
        endTimeAt g.hits (g.cursor - 1) + (g.leniency + g.approachTime)
          < g.now)) := by
  unfold play_check_end
  by_cases hn : cursorHasNext g
  · simp [hn]
  · by_cases ht : endTimeAt g.hits (g.cursor - 1)
        + (g.leniency + g.approachTime) < g.now
    · simp [hn, ht]
    · simp [hn, ht]

end Oshu

/-- C1: every single `update_clock` call, whatever the sampled wall-clock and
audio-position inputs and the playing flag, leaves `clock.now` no smaller
than it was before the call, and hence over any sequence of calls the
`clock.now` values are non-decreasing. -/
theorem C1_update_clock_monotone :
    (∀ (c : Oshu.Clock) (inp : Oshu.ClockInput),
      c.now ≤ (Oshu.update_clock c inp).now) ∧
    (∀ (c : Oshu.Clock) (l : List Oshu.ClockInput),
      c.now ≤ (Oshu.runClock c l).now) :=
  ⟨Oshu.update_clock_mono, Oshu.runClock_mono⟩

/-- C2: the pre-clamp `now` of a single `update_clock` call is given by the
claimed case analysis: unchanged when not playing; advanced by the elapsed
wall time when `before < 0` (lead-in) or when the sampled audio position
equals that of the previous sample (decoder stalled); and equal to the sampled
audio position otherwise. -/
theorem C2_update_clock_cases (c : Oshu.Clock) (inp : Oshu.ClockInput) :
    (inp.playing = false → Oshu.computed_now c inp = c.now) ∧
    (inp.playing = true → c.now < 0 →
      Oshu.computed_now c inp = c.now + (inp.system - c.system)) ∧
    (inp.playing = true → 0 ≤ c.now → inp.audioTimestamp = c.audio →
      Oshu.computed_now c inp = c.now + (inp.system - c.system)) ∧
    (inp.playing = true → 0 ≤ c.now → inp.audioTimestamp ≠ c.audio →
      Oshu.computed_now c inp = inp.audioTimestamp) := by
  refine ⟨?_, ?_, ?_, ?_⟩ <;> intros <;>
    simp_all [Oshu.computed_now] <;> intros <;> simp_all <;> linarith

/-- Witness for C2: the four cases at concrete clock states and inputs. -/
theorem C2_update_clock_cases_witness :
    (Oshu.computed_now ⟨5, 4, 10, 3⟩ ⟨11, 7, false⟩ = 5) ∧
    (Oshu.computed_now ⟨-2, -3, 10, 0⟩ ⟨11, 0, true⟩ = -1) ∧
    (Oshu.computed_now ⟨5, 4, 10, 3⟩ ⟨11, 3, true⟩ = 6) ∧
    (Oshu.computed_now ⟨5, 4, 10, 3⟩ ⟨11, 7, true⟩ = 7) := by
  refine ⟨?_, ?_, ?_, ?_⟩
  · exact (C2_update_clock_cases ⟨5, 4, 10, 3⟩ ⟨11, 7, false⟩).1 rfl
  · have h := (C2_update_clock_cases ⟨-2, -3, 10, 0⟩ ⟨11, 0, true⟩).2.1
      rfl (by norm_num)
    rw [h]; norm_num
  · have h := (C2_update_clock_cases ⟨5, 4, 10, 3⟩ ⟨11, 3, true⟩).2.2.1
      rfl (by norm_num) rfl
    rw [h]; norm_num
  · have h := (C2_update_clock_cases ⟨5, 4, 10, 3⟩ ⟨11, 7, true⟩).2.2.2
      rfl (by norm_num) (by norm_num)
    simpa using h

/-- C4 counterexample: on a time-sorted, sentinel-bounded timeline whose end
times are not monotone (a long slider), `oshu_look_hit_back` with
`now - offset = 2` returns the hit at index 2, yet the earlier hit at index 1
already has end time `≥ 2` (so the result is not the first such object in
list order), and the predecessor of the returned hit does not have end time
`< now - offset` either. -/
theorem C4_counterexample :
    Oshu.sortedByTime Oshu.exHitsBack ∧
    Oshu.oshu_look_hit_back Oshu.exHitsBack 3 4 2 = some 2 ∧
    ((4 : ℚ) - 2) ≤ Oshu.endTimeAt Oshu.exHitsBack 1 ∧
    ¬ Oshu.endTimeAt Oshu.exHitsBack (2 - 1) < ((4 : ℚ) - 2) := by
  norm_num [Oshu.sortedByTime, Oshu.oshu_look_hit_back, Oshu.walkBackGT,
    Oshu.walkFwdLT, Oshu.endTimeAt, Oshu.timeAt, Oshu.oshu_hit_end_time,
    Oshu.exHitsBack, List.getD_cons_zero, List.getD_cons_succ,
    List.chain'_cons, List.chain'_singleton]

/-- C4 amended: on every hit list sorted by time, with the head/tail hits
bounding the query targets, and for every cursor position in the list,
`oshu_look_hit_back` terminates and returns a hit whose end time is
`≥ now - offset` and which either has end time exactly `now - offset` or has
a predecessor with end time `< now - offset`; dually `oshu_look_hit_up`
terminates and returns a hit whose time is `≤ now + offset` and which either
has time exactly `now + offset` or a successor with time `> now + offset`.
(The stronger reading of the claim — first such object in list order, predecessor
strictly below the bound in all cases — fails, see the counterexample.) -/
theorem C4_look_hit_walks (hits : List Oshu.Hit) (cursor : Nat)
    (now offset : ℚ)
    (hsort : Oshu.sortedByTime hits)
    (hc : cursor < hits.length)
    (hheadEnd : Oshu.endTimeAt hits 0 ≤ now - offset)
    (htailEnd : now - offset ≤ Oshu.endTimeAt hits (hits.length - 1))
    (hheadTime : Oshu.timeAt hits 0 ≤ now + offset)
    (htailTime : now + offset ≤ Oshu.timeAt hits (hits.length - 1)) :
    (∃ r, Oshu.oshu_look_hit_back hits cursor now offset = some r ∧
      r < hits.length ∧ now - offset ≤ Oshu.endTimeAt hits r ∧
      (Oshu.endTimeAt hits r = now - offset ∨
        (0 < r ∧ Oshu.endTimeAt hits (r - 1) < now - offset))) ∧
    (∃ r, Oshu.oshu_look_hit_up hits cursor now offset = some r ∧
      r < hits.length ∧ Oshu.timeAt hits r ≤ now + offset ∧
      (Oshu.timeAt hits r = now + offset ∨
        (r + 1 < hits.length ∧ now + offset < Oshu.timeAt hits (r + 1)))) := by
  constructor
  · -- oshu_look_hit_back
    obtain ⟨k, hk1, hki, hkv, hkm⟩ :=
      Oshu.walkBackGT_spec (Oshu.endTimeAt hits) (now - offset) cursor
        ⟨0, Nat.zero_le _, hheadEnd⟩
    obtain ⟨r, hr, hkr, hrlen, hrv, hrm⟩ :=
      Oshu.walkFwdLT_spec (Oshu.endTimeAt hits) hits.length (now - offset)
        (hits.length + 1) k (by omega)
        ⟨hits.length - 1, by omega, by omega, htailEnd⟩
    refine ⟨r, ?_, hrlen, hrv, ?_⟩
    · unfold Oshu.oshu_look_hit_back
      rw [hk1]
      exact hr
    · rcases Nat.lt_or_ge k r with h2 | h2
      · exact Or.inr ⟨by omega, hrm (r - 1) (by omega) (by omega)⟩
      · have : k = r := le_antisymm hkr h2
        subst this
        exact Or.inl (le_antisymm hkv hrv)
  · -- oshu_look_hit_up
    obtain ⟨k, hk1, hck, hklen, hkv, hkm⟩ :=
      Oshu.walkFwdLT_spec (Oshu.timeAt hits) hits.length (now + offset)
        (hits.length + 1) cursor (by omega)
        ⟨hits.length - 1, by omega, by omega, htailTime⟩
    obtain ⟨r, hr, hrk, hrv, hrm⟩ :=
      Oshu.walkBackGT_spec (Oshu.timeAt hits) (now + offset) k
        ⟨0, Nat.zero_le _, hheadTime⟩
    refine ⟨r, ?_, by omega, hrv, ?_⟩
    · unfold Oshu.oshu_look_hit_up
      rw [hk1]
      exact hr
    · rcases Nat.lt_or_ge r k with h2 | h2
      · exact Or.inr ⟨by omega, hrm (r + 1) (by omega) (by omega)⟩
      · have : r = k := le_antisymm hrk h2
        subst this
        exact Or.inl (le_antisymm hrv hkv)

/-- Witness for C4: the amended seek property at the concrete slider
timeline, cursor 3, `now = 4`, `offset = 2`. -/
theorem C4_look_hit_walks_witness :
    (∃ r, Oshu.oshu_look_hit_back Oshu.exHitsBack 3 4 2 = some r ∧
      r < Oshu.exHitsBack.length ∧
      (4 : ℚ) - 2 ≤ Oshu.endTimeAt Oshu.exHitsBack r ∧
      (Oshu.endTimeAt Oshu.exHitsBack r = 4 - 2 ∨
        (0 < r ∧ Oshu.endTimeAt Oshu.exHitsBack (r - 1) < 4 - 2))) ∧
    (∃ r, Oshu.oshu_look_hit_up Oshu.exHitsBack 3 4 2 = some r ∧
      r < Oshu.exHitsBack.length ∧
      Oshu.timeAt Oshu.exHitsBack r ≤ (4 : ℚ) + 2 ∧
      (Oshu.timeAt Oshu.exHitsBack r = 4 + 2 ∨
        (r + 1 < Oshu.exHitsBack.length ∧
          (4 : ℚ) + 2 < Oshu.timeAt Oshu.exHitsBack (r + 1)))) :=
  C4_look_hit_walks Oshu.exHitsBack 3 4 2
    (by norm_num [Oshu.sortedByTime, Oshu.exHitsBack, List.chain'_cons,
      List.chain'_singleton])
    (by norm_num [Oshu.exHitsBack])
    (by norm_num [Oshu.endTimeAt, Oshu.oshu_hit_end_time, Oshu.exHitsBack,
      List.getD_cons_zero, List.getD_cons_succ])
    (by norm_num [Oshu.endTimeAt, Oshu.oshu_hit_end_time, Oshu.exHitsBack,
      List.getD_cons_zero, List.getD_cons_succ])
    (by norm_num [Oshu.timeAt, Oshu.exHitsBack, List.getD_cons_zero,
      List.getD_cons_succ])
    (by norm_num [Oshu.timeAt, Oshu.exHitsBack, List.getD_cons_zero,
      List.getD_cons_succ])

/-- C5 counterexample: on the timeline `[1,2,3,5,8]` with `now = 4` and
`offset = 2` (cursor on the object at time 3), `oshu_look_hit_back` returns
the object at time 2, not the object at time 3 the claim names. -/
theorem C5_counterexample :
    Oshu.oshu_look_hit_back Oshu.exHitsFive 2 4 2 = some 1 ∧
    Oshu.timeAt Oshu.exHitsFive 1 = 2 ∧ ((2 : ℚ) ≠ 3) := by
  norm_num [Oshu.oshu_look_hit_back, Oshu.walkBackGT, Oshu.walkFwdLT,
    Oshu.endTimeAt, Oshu.timeAt, Oshu.oshu_hit_end_time, Oshu.exHitsFive,
    List.getD_cons_zero, List.getD_cons_succ]

/-- C5 amended: for the timeline of point objects at times `[1,2,3,5,8]`
with `now = 4` and `offset = 2`, from every cursor position in the list,
`oshu_look_hit_back` returns the object at time 2 (index 1) — not time 3 —
and `oshu_look_hit_up` returns the object at time 5 (index 3). -/
theorem C5_seek_example (cursor : Nat) (h : cursor < 5) :
    Oshu.oshu_look_hit_back Oshu.exHitsFive cursor 4 2 = some 1 ∧
    Oshu.oshu_look_hit_up Oshu.exHitsFive cursor 4 2 = some 3 ∧
    Oshu.timeAt Oshu.exHitsFive 1 = 2 ∧
    Oshu.timeAt Oshu.exHitsFive 3 = 5 := by
  interval_cases cursor <;>
    norm_num [Oshu.oshu_look_hit_back, Oshu.oshu_look_hit_up, Oshu.walkBackGT,
      Oshu.walkFwdLT, Oshu.endTimeAt, Oshu.timeAt, Oshu.oshu_hit_end_time,
      Oshu.exHitsFive, List.getD_cons_zero, List.getD_cons_succ]

/-- Witness for C5: the amended statement at cursor 2. -/
theorem C5_seek_example_witness :
    Oshu.oshu_look_hit_back Oshu.exHitsFive 2 4 2 = some 1 ∧
    Oshu.oshu_look_hit_up Oshu.exHitsFive 2 4 2 = some 3 ∧
    Oshu.timeAt Oshu.exHitsFive 1 = 2 ∧
    Oshu.timeAt Oshu.exHitsFive 3 = 5 :=
  C5_seek_example 2 (by norm_num)

/-- C3 counterexample: in the `check_end` of game.c the finished transition does
not wait for the approach window: with the single object ending at 10,
`leniency = 1/2` and `approach_time = 1`, the session is already marked
finished at `now = 11`, although `11 ≤ 11.5`. -/
theorem C3_counterexample :
    (Oshu.check_end (Oshu.exEndGame 11)).flags.finished = true ∧
    (Oshu.exEndGame 11).flags.finished = false ∧
    (11 : ℚ) ≤ 10 + 1 / 2 + 1 := by
  refine ⟨?_, rfl, by norm_num⟩
  norm_num [Oshu.check_end, Oshu.exEndGame, Oshu.exEndHits,
    Oshu.cursorHasNext, Oshu.endTimeAt, Oshu.oshu_hit_end_time,
    List.getD_cons_zero, List.getD_cons_succ]

/-- C3 amended: the `check_end` of game.c marks the session finished exactly when
it was not already finished, the cursor has passed the last real object, and
`now > end_time(previous) + leniency` — without the approach window.  The
screen-based `check_end` of screens/play.c is the variant that also adds the
approach time: it switches to the score screen exactly when the cursor is
past the last real object and `now > end_time(previous) + leniency +
approach_time`; on the single-object example it fires only once
`now > 11.5`. -/
theorem C3_end_detection (g : Oshu.GameState) :
    ((Oshu.check_end g).flags.finished = true ↔
      (g.flags.finished = true ∨ (Oshu.cursorHasNext g = false ∧
        Oshu.endTimeAt g.hits (g.cursor - 1) + g.leniency < g.now))) ∧
    ((Oshu.play_check_end g).screen = Oshu.Screen.score ↔
      (g.screen = Oshu.Screen.score ∨ (Oshu.cursorHasNext g = false ∧
        Oshu.endTimeAt g.hits (g.cursor - 1) + (g.leniency + g.approachTime)
          < g.now))) ∧
    (∀ t : ℚ, t ≤ 10 + 1 / 2 + 1 →
      (Oshu.play_check_end (Oshu.exEndGame t)).screen = Oshu.Screen.play) ∧
    (∀ t : ℚ, 10 + 1 / 2 + 1 < t →
      (Oshu.play_check_end (Oshu.exEndGame t)).screen = Oshu.Screen.score) := by
  refine ⟨Oshu.check_end_finished_iff g, Oshu.play_check_end_score_iff g,
    ?_, ?_⟩
  · intro t ht
    have hval : Oshu.endTimeAt (Oshu.exEndGame t).hits
        ((Oshu.exEndGame t).cursor - 1) = 10 := by
      norm_num [Oshu.endTimeAt, Oshu.oshu_hit_end_time, Oshu.exEndGame,
        Oshu.exEndHits]
    cases hsc : (Oshu.play_check_end (Oshu.exEndGame t)).screen with
    | play => rfl
    | score =>
        exfalso
        rcases (Oshu.play_check_end_score_iff (Oshu.exEndGame t)).mp hsc with
          hl | ⟨_, hlt⟩
        · exact absurd hl (by simp [Oshu.exEndGame])
        · rw [hval] at hlt
          have hda : (Oshu.exEndGame t).leniency
              + (Oshu.exEndGame t).approachTime = 3 / 2 := by
            norm_num [Oshu.exEndGame]
          rw [hda] at hlt
          have hnow : (Oshu.exEndGame t).now = t := rfl
          rw [hnow] at hlt
          linarith
  · intro t ht
    have hval : Oshu.endTimeAt (Oshu.exEndGame t).hits
        ((Oshu.exEndGame t).cursor - 1) = 10 := by
      norm_num [Oshu.endTimeAt, Oshu.oshu_hit_end_time, Oshu.exEndGame,
        Oshu.exEndHits]
    apply (Oshu.play_check_end_score_iff (Oshu.exEndGame t)).mpr
    refine Or.inr ⟨rfl, ?_⟩
    rw [hval]
    have hda : (Oshu.exEndGame t).leniency
        + (Oshu.exEndGame t).approachTime = 3 / 2 := by
      norm_num [Oshu.exEndGame]
    rw [hda]
    have hnow : (Oshu.exEndGame t).now = t := rfl
    rw [hnow]
    linarith

/-- Witness for C3: on the single-object example, at `now = 11` the
screen-based variant has not fired, while at `now = 12` it has. -/
theorem C3_end_detection_witness :
    (Oshu.play_check_end (Oshu.exEndGame 11)).screen = Oshu.Screen.play ∧
    (Oshu.play_check_end (Oshu.exEndGame 12)).screen = Oshu.Screen.score :=
  ⟨(C3_end_detection (Oshu.exEndGame 11)).2.2.1 11 (by norm_num),
   (C3_end_detection (Oshu.exEndGame 12)).2.2.2 12 (by norm_num)⟩

/-- C6: with `s` the clock value resulting from the audio seek, on a
time-sorted timeline whose head/tail sentinels bound `s + 1` and whose
cursor is in range: `rewind_music` succeeds, the new cursor is the nearest
position at or before the old one whose time is `≤ s + 1`, every walked hit
(strictly between new and old cursor positions, old included) had time
`> s + 1` and is reset to initial, and every other hit is unchanged; dually
`forward_music` succeeds, the new cursor is the first position at or after
the old one whose time is `≥ s + 1`, every walked hit had time `< s + 1` and
is marked skipped, and every other hit is unchanged. -/
theorem C6_seek_mutation (g : Oshu.GameState) (offset s : ℚ)
    (hc : g.cursor < g.hits.length)
    (hhead : Oshu.timeAt g.hits 0 ≤ s + 1)
    (htail : s + 1 ≤ Oshu.timeAt g.hits (g.hits.length - 1)) :
    (∃ g', Oshu.rewind_music g offset s = some g' ∧ g'.now = s ∧
      g'.hits.length = g.hits.length ∧ g'.cursor ≤ g.cursor ∧
      Oshu.timeAt g.hits g'.cursor ≤ s + 1 ∧
      (∀ j, g'.cursor < j → j ≤ g.cursor →
        s + 1 < Oshu.timeAt g.hits j ∧
        g'.hits.getD j default =
          { g.hits.getD j default with state := Oshu.HitState.initial }) ∧
      (∀ j, ¬(g'.cursor < j ∧ j ≤ g.cursor) →
        g'.hits.getD j default = g.hits.getD j default)) ∧
    (∃ g', Oshu.forward_music g offset s = some g' ∧ g'.now = s ∧
      g'.hits.length = g.hits.length ∧ g.cursor ≤ g'.cursor ∧
      g'.cursor < g.hits.length ∧ s + 1 ≤ Oshu.timeAt g.hits g'.cursor ∧
      (∀ j, g.cursor ≤ j → j < g'.cursor →
        Oshu.timeAt g.hits j < s + 1 ∧
        g'.hits.getD j default =
          { g.hits.getD j default with state := Oshu.HitState.skipped }) ∧
      (∀ j, ¬(g.cursor ≤ j ∧ j < g'.cursor) →
        g'.hits.getD j default = g.hits.getD j default)) := by
  constructor
  · obtain ⟨hits', k, hw, hki, hlen, hkv, hwalk, hsame⟩ :=
      Oshu.rewindWalk_spec (s + 1) g.cursor g.hits hc
        ⟨0, Nat.zero_le _, hhead⟩
    exact ⟨_, Oshu.rewind_music_some g offset s hits' k hw, rfl, hlen, hki,
      hkv, hwalk, hsame⟩
  · obtain ⟨hits', k, hw, hik, hkl, hlen, hkv, hwalk, hsame⟩ :=
      Oshu.forwardWalk_spec (s + 1) (g.hits.length + 1) g.hits g.cursor
        (by omega) ⟨g.hits.length - 1, by omega, by omega, htail⟩
    exact ⟨_, Oshu.forward_music_some g offset s hits' k hw, rfl, hlen, hik,
      hkl, hkv, hwalk, hsame⟩

/-- Witness for C6: the seek mutation property at the concrete session
`exSeekGame` (cursor on the tail sentinel, clock 11) with a rewind/forward
landing the clock at 9. -/
theorem C6_seek_mutation_witness :
    (∃ g', Oshu.rewind_music Oshu.exSeekGame 2 9 = some g' ∧ g'.now = 9 ∧
      g'.hits.length = Oshu.exSeekGame.hits.length ∧
      g'.cursor ≤ Oshu.exSeekGame.cursor ∧
      Oshu.timeAt Oshu.exSeekGame.hits g'.cursor ≤ 9 + 1 ∧
      (∀ j, g'.cursor < j → j ≤ Oshu.exSeekGame.cursor →
        9 + 1 < Oshu.timeAt Oshu.exSeekGame.hits j ∧
        g'.hits.getD j default =
          { Oshu.exSeekGame.hits.getD j default
            with state := Oshu.HitState.initial }) ∧
      (∀ j, ¬(g'.cursor < j ∧ j ≤ Oshu.exSeekGame.cursor) →
        g'.hits.getD j default = Oshu.exSeekGame.hits.getD j default)) ∧
    (∃ g', Oshu.forward_music Oshu.exSeekGame 2 9 = some g' ∧ g'.now = 9 ∧
      g'.hits.length = Oshu.exSeekGame.hits.length ∧
      Oshu.exSeekGame.cursor ≤ g'.cursor ∧
      g'.cursor < Oshu.exSeekGame.hits.length ∧
      9 + 1 ≤ Oshu.timeAt Oshu.exSeekGame.hits g'.cursor ∧
      (∀ j, Oshu.exSeekGame.cursor ≤ j → j < g'.cursor →
        Oshu.timeAt Oshu.exSeekGame.hits j < 9 + 1 ∧
        g'.hits.getD j default =
          { Oshu.exSeekGame.hits.getD j default
            with state := Oshu.HitState.skipped }) ∧
      (∀ j, ¬(Oshu.exSeekGame.cursor ≤ j ∧ j < g'.cursor) →
        g'.hits.getD j default = Oshu.exSeekGame.hits.getD j default)) :=
  C6_seek_mutation Oshu.exSeekGame 2 9
    (by norm_num [Oshu.exSeekGame])
    (by norm_num [Oshu.exSeekGame, Oshu.timeAt])
    (by norm_num [Oshu.exSeekGame, Oshu.timeAt])

/-- C7 counterexample: with a note at time 10, the cursor on it and the
clock at 9.5, an exact rewind by 2 followed by an exact forward by 2 brings
the clock back to 9.5 but leaves the cursor on the tail sentinel (index 2),
not on the note (index 1): the forward walk skips every hit with time below
`now + 1`, and the note at 10 lies inside that one-second buffer. -/
theorem C7_counterexample :
    Oshu.exC7After.map Oshu.GameState.cursor = some 2 ∧
    Oshu.exC7After.map Oshu.GameState.now = some (19 / 2) ∧
    Oshu.exC7Game.cursor = 1 ∧ Oshu.exC7Game.now = 19 / 2 ∧
    (2 : Nat) ≠ 1 := by
  norm_num [Oshu.exC7After, Oshu.exC7Game, Oshu.rewind_music,
    Oshu.forward_music, Oshu.relinquish, Oshu.rewindWalk, Oshu.forwardWalk,
    Oshu.setState, Oshu.timeAt, List.getD_cons_zero, List.getD_cons_succ,
    List.set_cons_zero, List.set_cons_succ]

/-- C7 amended: rewinding by `offset` and then forwarding by the same
`offset`, with both audio seeks exact and the clock in sync with the audio
position, restores the hit cursor — provided the starting cursor is the
first object at least one second ahead of the clock (`time ≥ now + 1`, the
walk buffer), which is what the rewind/forward walks themselves establish.
Without that proviso the composition overshoots (see the counterexample). -/
theorem C7_rewind_forward_cursor (g : Oshu.GameState) (offset : ℚ)
    (hc : g.cursor < g.hits.length)
    (hoff : 0 ≤ offset)
    (hsync : g.audioTimestamp = g.now)
    (hcur1 : g.now + 1 ≤ Oshu.timeAt g.hits g.cursor)
    (hcur2 : ∀ j, j < g.cursor → Oshu.timeAt g.hits j < g.now + 1)
    (hhead : Oshu.timeAt g.hits 0 ≤ g.now - offset + 1) :
    ∃ g1 g2,
      Oshu.rewind_music g offset (g.audioTimestamp - offset) = some g1 ∧
      Oshu.forward_music g1 offset (g1.audioTimestamp + offset) = some g2 ∧
      g2.cursor = g.cursor ∧ g2.now = g.now := by
  have hs1 : g.audioTimestamp - offset = g.now - offset := by rw [hsync]
  obtain ⟨hits', k, hw, hki, hlen, hkv, hwalk, hsame⟩ :=
    Oshu.rewindWalk_spec (g.now - offset + 1) g.cursor g.hits hc
      ⟨0, Nat.zero_le _, hhead⟩
  have hrw : Oshu.rewind_music g offset (g.audioTimestamp - offset) =
      some { g with
             audioTimestamp := g.now - offset
             now := g.now - offset
             currentHit := none
             hits := hits'
             cursor := k } := by
    rw [hs1]
    exact Oshu.rewind_music_some g offset (g.now - offset) hits' k hw
  have htime : ∀ m, Oshu.timeAt hits' m = Oshu.timeAt g.hits m := by
    intro m
    by_cases hm : k < m ∧ m ≤ g.cursor
    · have h2 := (hwalk m hm.1 hm.2).2
      unfold Oshu.timeAt
      rw [h2]
    · unfold Oshu.timeAt
      rw [hsame m hm]
  obtain ⟨hits'', k2, hw2, hik2, hkl2, hlen2, hkv2, hwalk2, hsame2⟩ :=
    Oshu.forwardWalk_spec (g.now + 1) (hits'.length + 1) hits' k
      (by omega)
      ⟨g.cursor, hki, by rw [hlen]; exact hc,
       by rw [htime]; exact hcur1⟩
  have hs2 : (g.now - offset) + offset = g.now := by ring
  have hk2 : k2 = g.cursor := by
    rcases Nat.lt_trichotomy k2 g.cursor with h1 | h1 | h1
    · exfalso
      have hx := hkv2
      rw [htime] at hx
      exact absurd hx (not_le.mpr (hcur2 k2 h1))
    · exact h1
    · exfalso
      have hx := (hwalk2 g.cursor hki h1).1
      rw [htime] at hx
      exact absurd hcur1 (not_le.mpr hx)
  refine ⟨{ g with
            audioTimestamp := g.now - offset
            now := g.now - offset
            currentHit := none
            hits := hits'
            cursor := k },
          { g with
            audioTimestamp := g.now
            now := g.now
            currentHit := none
            audioPlaying := (!g.flags.paused || g.audioPlaying)
            hits := hits''
            cursor := k2 },
          hrw, ?_, hk2, rfl⟩
  show Oshu.forward_music _ offset (g.now - offset + offset) = _
  rw [hs2]
  exact Oshu.forward_music_some _ offset g.now hits'' k2 hw2

/-- Witness for C7: the cursor-restoring round trip at the paused session
`exC7WGame`, whose cursor sits on the note at time 20, more than one second
ahead of the clock at 9.5. -/
theorem C7_rewind_forward_cursor_witness :
    ∃ g1 g2,
      Oshu.rewind_music Oshu.exC7WGame 2
        (Oshu.exC7WGame.audioTimestamp - 2) = some g1 ∧
      Oshu.forward_music g1 2 (g1.audioTimestamp + 2) = some g2 ∧
      g2.cursor = Oshu.exC7WGame.cursor ∧ g2.now = Oshu.exC7WGame.now :=
  C7_rewind_forward_cursor Oshu.exC7WGame 2
    (by norm_num [Oshu.exC7WGame])
    (by norm_num)
    (by norm_num [Oshu.exC7WGame])
    (by norm_num [Oshu.exC7WGame, Oshu.timeAt])
    (by
      intro j hj
      have hj2 : j < 2 := hj
      interval_cases j <;> norm_num [Oshu.exC7WGame, Oshu.timeAt])
    (by norm_num [Oshu.exC7WGame, Oshu.timeAt])

/-- C8 counterexample: in the user-play playing state, a key-down event
whose symbol is `q` but whose scancode translates to a finger key (the
physical A position, as a non-QWERTY layout produces) does reach
`mode->press`: handle_event filters the reserved keys by symbol only in the
autoplay/paused branch, and in the playing branch `q` falls through to the
scancode translation. -/
theorem C8_counterexample :
    (Oshu.handle_event Oshu.exC8Game
        (Oshu.Event.keyDown false Oshu.KeySym.q Oshu.Scancode.a) 0).map
      Prod.snd = some [Oshu.ModeCall.press Oshu.OshuKey.leftPinky] ∧
    Oshu.exC8Game.flags.autoplay = false ∧
    Oshu.exC8Game.flags.paused = false ∧
    Oshu.exC8Game.flags.userplay = true ∧
    Oshu.exC8Game.flags.playing = true := by
  exact ⟨rfl, rfl, rfl, rfl, rfl⟩

/-- C8 amended: assuming the flag-exclusivity invariants of the spec (autoplay
and user-play not both set; paused and playing not both set), `handle_event`
never invokes `mode->press`/`mode->release` when OSHU_AUTOPLAY or
OSHU_PAUSED is set, never for a key-down whose repeat flag is set, never for
a key-down whose symbol is escape, page-up or page-down, and never for a key
event whose scancode translates to OSHU_UNKNOWN_KEY (which is how `q` on a
standard layout is filtered — a `q` symbol whose scancode maps to a finger
key is dispatched, see the counterexample); press/release happen only in the
user-play, playing state. -/
theorem C8_dispatch_filter (g : Oshu.GameState) (e : Oshu.Event) (s : ℚ)
    (g' : Oshu.GameState) (calls : List Oshu.ModeCall)
    (hax : ¬(g.flags.autoplay = true ∧ g.flags.userplay = true))
    (hpp : ¬(g.flags.paused = true ∧ g.flags.playing = true))
    (h : Oshu.handle_event g e s = some (g', calls)) :
    ((g.flags.autoplay = true ∨ g.flags.paused = true) → calls = []) ∧
    (∀ sym sc, e = Oshu.Event.keyDown true sym sc → calls = []) ∧
    (∀ rep sc,
      (e = Oshu.Event.keyDown rep Oshu.KeySym.escape sc ∨
       e = Oshu.Event.keyDown rep Oshu.KeySym.pageup sc ∨
       e = Oshu.Event.keyDown rep Oshu.KeySym.pagedown sc) → calls = []) ∧
    (∀ rep sym sc,
      (e = Oshu.Event.keyDown rep sym sc ∨ e = Oshu.Event.keyUp sym sc) →
      Oshu.translate_key sc = Oshu.OshuKey.unknown → calls = []) ∧
    (calls ≠ [] → g.flags.userplay = true ∧ g.flags.playing = true) := by
  rcases Oshu.handle_event_calls_spec g e s g' calls h with
    hnil | ⟨hu, hp, hdisp⟩
  · exact ⟨fun _ => hnil, fun _ _ _ => hnil, fun _ _ _ => hnil,
      fun _ _ _ _ _ => hnil, fun hne => absurd hnil hne⟩
  · refine ⟨?_, ?_, ?_, ?_, fun _ => ⟨hu, hp⟩⟩
    · rintro (ha | hpa)
      · exact absurd ⟨ha, hu⟩ hax
      · exact absurd ⟨hpa, hp⟩ hpp
    · rintro sym sc he
      rcases hdisp with ⟨s1, c1, heq, -, -, -, -, -⟩ |
        ⟨s1, c1, heq, -, -⟩ | ⟨heq, -⟩ | ⟨heq, -⟩ <;>
        rw [he] at heq <;> simp at heq
    · rintro rep sc he
      rcases hdisp with ⟨s1, c1, heq, hsy, -, -, -, -⟩ | hrest
      · rcases he with he | he | he <;> rw [he] at heq <;> simp at heq <;>
          rcases hsy with h4 | h4 <;> simp_all
      · rcases hrest with ⟨s1, c1, heq, -, -⟩ | ⟨heq, -⟩ | ⟨heq, -⟩ <;>
          rcases he with he | he | he <;> rw [he] at heq <;> simp at heq
    · rintro rep sym sc he hk
      rcases hdisp with ⟨s1, c1, heq, -, -, -, hne, -⟩ |
        ⟨s1, c1, heq, hne, -⟩ | ⟨heq, -⟩ | ⟨heq, -⟩
      · rcases he with he | he
        · rw [he] at heq
          simp at heq
          simp_all
        · rw [he] at heq
          simp at heq
      · rcases he with he | he
        · rw [he] at heq
          simp at heq
        · rw [he] at heq
          simp at heq
          simp_all
      · rcases he with he | he <;> rw [he] at heq <;> simp at heq
      · rcases he with he | he <;> rw [he] at heq <;> simp at heq

/-- Witness for C8: a mouse press in the user-play playing state is
dispatched, and the filter theorem then certifies the state flags. -/
theorem C8_dispatch_filter_witness :
    Oshu.exC8Game.flags.userplay = true ∧
    Oshu.exC8Game.flags.playing = true :=
  (C8_dispatch_filter Oshu.exC8Game Oshu.Event.mouseDown 0 Oshu.exC8Game
    [Oshu.ModeCall.press Oshu.OshuKey.leftButton]
    (by simp [Oshu.exC8Game]) (by simp [Oshu.exC8Game]) rfl).2.2.2.2
    (by simp)

/-- C9: starting from any session in which OSHU_PAUSED and OSHU_PLAYING are
not both set, no sequence of pause_game, unpause_game, handle_event and
check_end steps (with arbitrary events and seek outcomes) reaches a state
with both flags set. -/
theorem C9_flags_exclusion (g g' : Oshu.GameState)
    (hg : Oshu.flagsOK g)
    (hsteps : Relation.ReflTransGen Oshu.Step g g') :
    Oshu.flagsOK g' := by
  induction hsteps with
  | refl => exact hg
  | tail _ hstep ih => exact Oshu.step_flagsOK _ _ ih hstep

/-- Witness for C9: the invariant after a single pause step from a playing
session. -/
theorem C9_flags_exclusion_witness :
    Oshu.flagsOK (Oshu.pause_game Oshu.exC8Game) :=
  C9_flags_exclusion Oshu.exC8Game (Oshu.pause_game Oshu.exC8Game)
    (by simp [Oshu.flagsOK, Oshu.exC8Game])
    (Relation.ReflTransGen.single (Oshu.Step.pause Oshu.exC8Game))

/-- C10: unpause_game performs a 1-second rewind (with every cursor/state
effect of rewind_music) and resumes the audio when `now ≥ 0` and autoplay is
off; resumes the audio without rewinding when `now ≥ 0` and autoplay is on;
does neither when `now < 0`; and in every case clears OSHU_PAUSED and sets
OSHU_PLAYING. -/
theorem C10_unpause_behavior (g : Oshu.GameState) (s : ℚ) :
    (g.now < 0 →
      Oshu.unpause_game g s =
        some { g with
               flags := { g.flags with paused := false, playing := true } }) ∧
    (0 ≤ g.now → g.flags.autoplay = true →
      Oshu.unpause_game g s =
        some { g with
               audioPlaying := true
               flags := { g.flags with paused := false, playing := true } }) ∧
    (0 ≤ g.now → g.flags.autoplay = false →
      Oshu.unpause_game g s = (Oshu.rewind_music g 1 s).map
        (fun g1 => { g1 with
                     audioPlaying := true
                     flags := { g1.flags with
                                paused := false, playing := true } })) ∧
    (∀ g', Oshu.unpause_game g s = some g' →
      g'.flags.paused = false ∧ g'.flags.playing = true) := by
  refine ⟨?_, ?_, ?_, fun g' h => Oshu.unpause_game_flags g s g' h⟩
  · intro h0
    unfold Oshu.unpause_game
    rw [if_neg (not_le.mpr h0)]
  · intro h0 ha
    unfold Oshu.unpause_game
    rw [if_pos h0]
    simp [ha]
  · intro h0 ha
    unfold Oshu.unpause_game
    rw [if_pos h0]
    simp only [ha, Bool.not_false, if_pos]
    cases hr : Oshu.rewind_music g 1 s with
    | none => simp [hr]
    | some g1 => simp [hr]

/-- Witness for C10: the three cases at concrete sessions — lead-in clock
(no rewind, no audio start), autoplay (audio start without rewind), and
user-play (1-second rewind then audio start). -/
theorem C10_unpause_behavior_witness :
    (Oshu.unpause_game Oshu.exUnpNeg 7 =
      some { Oshu.exUnpNeg with
             flags := { Oshu.exUnpNeg.flags with
                        paused := false, playing := true } }) ∧
    (Oshu.unpause_game Oshu.exUnpAuto 7 =
      some { Oshu.exUnpAuto with
             audioPlaying := true
             flags := { Oshu.exUnpAuto.flags with
                        paused := false, playing := true } }) ∧
    (Oshu.unpause_game Oshu.exUnpUser 10 =
      (Oshu.rewind_music Oshu.exUnpUser 1 10).map
        (fun g1 => { g1 with
                     audioPlaying := true
                     flags := { g1.flags with
                                paused := false, playing := true } })) :=
  ⟨(C10_unpause_behavior Oshu.exUnpNeg 7).1
      (by norm_num [Oshu.exUnpNeg, Oshu.exC8Game]),
   (C10_unpause_behavior Oshu.exUnpAuto 7).2.1
      (by norm_num [Oshu.exUnpAuto, Oshu.exC8Game]) rfl,
   (C10_unpause_behavior Oshu.exUnpUser 10).2.2.1
      (by norm_num [Oshu.exUnpUser, Oshu.exC8Game]) rfl⟩
